import Mathlib

/-!
Verification of the RBF basis module (`rbf/basis.py`).

The module stores a symbolic expression for a radial basis function over
the canonical symbols `r` and `eps`, lazily differentiates it with respect
to per-axis coordinate symbols, optionally wraps the result in a piecewise
expression handling the removable singularity at the center, compiles the
expression to a numeric evaluator, and caches the evaluator keyed by the
derivative multi-index.

The shallow embedding below mirrors the source:
* sympy expressions become the inductive type `Expr` over symbols `Sym`
  (the canonical `r`/`eps`, per-axis coordinate symbols `x i`/`c i`, and
  arbitrary foreign symbols);
* `numpy` arrays of floats become `NDArr` (rank 0, 1 or 2 rational data;
  exact rational arithmetic stands in for floating point, with `Option ℚ`
  results where `none` plays the role of NaN / a value that the exact
  semantics cannot represent);
* Python `ValueError`s become the structured `RBFError` type carrying the
  same data as the source's message strings;
* sympy's symbolic `limit` engine is an external collaborator, so the
  compiler is parameterised by an arbitrary `limitFn`;
* `ufuncify` compilation is modelled by keeping the final symbolic
  expression in the cache and evaluating it pointwise with broadcasting
  semantics (`outMatrix`).
-/

namespace RbfBasis

abbrev Q := ℚ

/-- Symbols that may occur in expressions: the canonical radial variable
`r` and shape parameter `eps` of the module, the per-axis coordinate
symbols `x0..` / `c0..` introduced by `add_diff_to_cache`, and foreign
symbols (used only to model expressions rejected by the constructor). -/
inductive Sym where
  | R : Sym
  | EPS : Sym
  | xv : Nat → Sym
  | cv : Nat → Sym
  | other : String → Sym
deriving DecidableEq, Repr

/-- Symbolic expressions, a shallow embedding of the sympy expressions the
module builds: rational constants, the symbols above, arithmetic, natural
powers, square root, logarithm, exponential, and the two-branch
`Piecewise((val, lhs < rhs), (els, True))` construct from
`add_diff_to_cache`. -/
inductive Expr where
  | sym : Sym → Expr
  | num : Q → Expr
  | add : Expr → Expr → Expr
  | neg : Expr → Expr
  | mul : Expr → Expr → Expr
  | div : Expr → Expr → Expr
  | pow : Expr → Nat → Expr
  | sqrt : Expr → Expr
  | log : Expr → Expr
  | exp : Expr → Expr
  | piecewise : Expr → Expr → Expr → Expr → Expr
deriving DecidableEq, Repr

/-- Difference of two expressions (sympy builds `xi - ci` as an `Add`). -/
def Expr.sub (a b : Expr) : Expr := .add a (.neg b)

/-- Does the expression contain a symbol satisfying `p`?  Used to model
sympy's `free_symbols` queries. -/
def Expr.hasWhere (p : Sym → Bool) : Expr → Bool
  | .sym s => p s
  | .num _ => false
  | .add a b => a.hasWhere p || b.hasWhere p
  | .neg a => a.hasWhere p
  | .mul a b => a.hasWhere p || b.hasWhere p
  | .div a b => a.hasWhere p || b.hasWhere p
  | .pow a _ => a.hasWhere p
  | .sqrt a => a.hasWhere p
  | .log a => a.hasWhere p
  | .exp a => a.hasWhere p
  | .piecewise v l r e =>
      v.hasWhere p || l.hasWhere p || r.hasWhere p || e.hasWhere p

/-- Models sympy's `expr.has(s)` for a symbol `s`. -/
def Expr.has (e : Expr) (s : Sym) : Bool := e.hasWhere (fun t => t == s)

/-- Models sympy's `expr.subs(s, rep)`: replace every occurrence of the
symbol `s` by the expression `rep`. -/
def Expr.subs (e : Expr) (s : Sym) (rep : Expr) : Expr :=
  match e with
  | .sym t => if t == s then rep else .sym t
  | .num q => .num q
  | .add a b => .add (a.subs s rep) (b.subs s rep)
  | .neg a => .neg (a.subs s rep)
  | .mul a b => .mul (a.subs s rep) (b.subs s rep)
  | .div a b => .div (a.subs s rep) (b.subs s rep)
  | .pow a n => .pow (a.subs s rep) n
  | .sqrt a => .sqrt (a.subs s rep)
  | .log a => .log (a.subs s rep)
  | .exp a => .exp (a.subs s rep)
  | .piecewise v l r e2 =>
      .piecewise (v.subs s rep) (l.subs s rep) (r.subs s rep) (e2.subs s rep)

/-- Symbolic differentiation with respect to the symbol `s`, models
sympy's `expr.diff(s)` (standard calculus rules; `Piecewise` is
differentiated branchwise). -/
def Expr.d (s : Sym) : Expr → Expr
  | .sym t => if t == s then .num 1 else .num 0
  | .num _ => .num 0
  | .add a b => .add (a.d s) (b.d s)
  | .neg a => .neg (a.d s)
  | .mul a b => .add (.mul (a.d s) b) (.mul a (b.d s))
  | .div a b => .div (Expr.sub (.mul (a.d s) b) (.mul a (b.d s))) (.pow b 2)
  | .pow a n => .mul (.mul (.num n) (.pow a (n - 1))) (a.d s)
  | .sqrt a => .div (a.d s) (.mul (.num 2) (.sqrt a))
  | .log a => .div (a.d s) a
  | .exp a => .mul (.exp a) (a.d s)
  | .piecewise v l r e => .piecewise (v.d s) l r (e.d s)

/-- Exact rational square root: `some` when the non-negative rational has
a rational square root, `none` otherwise (standing in for an irrational or
NaN floating-point result in the exact semantics). -/
def ratSqrt (q : Q) : Option Q :=
  if q < 0 then none
  else
    let n := q.num.toNat
    let dn := q.den
    let sn := Nat.sqrt n
    let sd := Nat.sqrt dn
    if sn * sn = n ∧ sd * sd = dn then some ((sn : Q) / (sd : Q)) else none

/-- Pointwise numeric evaluation of a compiled expression under a symbol
assignment — the model of calling a `ufuncify`-compiled function at one
broadcast position.  Exact rational arithmetic stands in for IEEE floats:
`none` models NaN and any value the exact semantics cannot represent
(division by zero, irrational roots, transcendental values). -/
def Expr.evalE (va : Sym → Q) : Expr → Option Q
  | .sym s => some (va s)
  | .num q => some q
  | .add a b =>
      match a.evalE va, b.evalE va with
      | some u, some v => some (u + v)
      | _, _ => none
  | .neg a =>
      match a.evalE va with
      | some u => some (-u)
      | none => none
  | .mul a b =>
      match a.evalE va, b.evalE va with
      | some u, some v => some (u * v)
      | _, _ => none
  | .div a b =>
      match a.evalE va, b.evalE va with
      | some u, some v => if v = 0 then none else some (u / v)
      | _, _ => none
  | .pow a n =>
      match a.evalE va with
      | some u => some (u ^ n)
      | none => none
  | .sqrt a =>
      match a.evalE va with
      | some u => ratSqrt u
      | none => none
  | .log a =>
      match a.evalE va with
      | some u => if u = 1 then some 0 else none
      | none => none
  | .exp a =>
      match a.evalE va with
      | some u => if u = 0 then some 1 else none
      | none => none
  | .piecewise v l r e =>
      match l.evalE va, r.evalE va with
      | some lv, some rv => if lv < rv then v.evalE va else e.evalE va
      | _, _ => none

/-- Structured form of the `ValueError`s raised by the module: the rank
mismatch and per-axis mismatch messages of `_assert_shape`, and the three
construction-time failures of `RBF.__init__`. -/
inductive RBFError where
  | dimMismatch : String → Nat → Nat → RBFError
  | axisMismatch : Nat → String → Nat → Nat → RBFError
  | invalidSymbols : RBFError
  | missingRadialVariable : RBFError
  | invalidTolerance : RBFError
deriving DecidableEq, Repr

/-- Per-axis loop of `_assert_shape`: `none` in the pattern means the axis
may have any length; otherwise the actual and expected lengths must agree,
else the error names the axis, the label and both lengths. -/
def checkAxes (label : String) : Nat → List (Nat × Option Nat) → Except RBFError Unit
  | _, [] => .ok ()
  | axis, (i, j) :: rest =>
      match j with
      | none => checkAxes label (axis + 1) rest
      | some jv =>
          if i = jv then checkAxes label (axis + 1) rest
          else .error (.axisMismatch axis label i jv)

/-- Model of `_assert_shape(a, shape, label)`: first the rank (number of
axes) must match, then each constrained axis length must match. -/
def assert_shape (ashape : List Nat) (shape : List (Option Nat)) (label : String) :
    Except RBFError Unit :=
  if ashape.length = shape.length then checkAxes label 0 (ashape.zip shape)
  else .error (.dimMismatch label ashape.length shape.length)

/-- A numpy float array of rank 0, 1, or 2, as produced by `np.asarray`.
A rank-2 array stores its column count `m` alongside its rows; the
well-formedness predicate `wf` says every row really has length `m`. -/
inductive NDArr where
  | a0 : Q → NDArr
  | a1 : List Q → NDArr
  | a2 : Nat → List (List Q) → NDArr
deriving DecidableEq, Repr

/-- Models `np.shape`. -/
def NDArr.shape : NDArr → List Nat
  | .a0 _ => []
  | .a1 v => [v.length]
  | .a2 m v => [v.length, m]

/-- The rows of a rank-2 array (empty for other ranks; only consulted
after the rank-2 shape check has passed). -/
def NDArr.rows : NDArr → List (List Q)
  | .a2 _ v => v
  | _ => []

/-- Well-formedness of the stored data: a rank-2 array's rows all have the
declared column count (this is what a successful `np.asarray(...,
dtype=float)` guarantees). -/
def NDArr.wf : NDArr → Prop
  | .a2 m v => ∀ r ∈ v, r.length = m
  | _ => True

instance : DecidablePred NDArr.wf := by
  intro a
  cases a with
  | a0 v => exact isTrue trivial
  | a1 v => exact isTrue trivial
  | a2 m v => exact List.decidableBAll _ v

/-- Lookup in an insertion-ordered association list, the model of a
Python `dict` read (`m[k]` / `k in m`). -/
def lookupAssoc (m : List (List Nat × Expr)) (k : List Nat) : Option Expr :=
  match m with
  | [] => none
  | (k2, v) :: t => if k2 = k then some v else lookupAssoc t k

/-- Insertion-ordered association-list update, the model of a Python
`dict` write (`m[k] = v`): replace in place when the key is present,
append otherwise. -/
def updateAssoc (m : List (List Nat × Expr)) (k : List Nat) (v : Expr) :
    List (List Nat × Expr) :=
  match m with
  | [] => [(k, v)]
  | (k2, w) :: t => if k2 = k then (k2, v) :: t else (k2, w) :: updateAssoc t k v

/-- The RBF definition: the stored symbolic expression, the optional
singularity tolerance, the cache of compiled derivative evaluators keyed
by derivative multi-index, and the table of known limits (field order as
assigned in `RBF.__init__`). -/
structure RBF where
  expr : Expr
  tol : Option Expr
  cache : List (List Nat × Expr)
  limits : List (List Nat × Expr)
deriving DecidableEq, Repr

/-- A free symbol outside the allowed set `{r, eps}` of
`expr.free_symbols.difference({_R,_EPS})`. -/
def symOutside (s : Sym) : Bool := !(s == Sym.R || s == Sym.EPS)

/-- A free symbol of `tol` outside the allowed set `{eps}`. -/
def tolOutside (s : Sym) : Bool := !(s == Sym.EPS)

/-- Model of `RBF.__init__(expr, tol=None, limits=None)`: reject free
symbols outside `{r, eps}`, require dependence on `r`, substitute
`eps*r` for `r` when `eps` is absent, check that `tol` (when given)
contains no symbol other than `eps`, default `limits` to empty, and start
with an empty cache. -/
def RBF.init (expr : Expr) (tol : Option Expr)
    (limits : Option (List (List Nat × Expr))) : Except RBFError RBF :=
  if expr.hasWhere symOutside then
    .error .invalidSymbols
  else if !(expr.has .R) then
    .error .missingRadialVariable
  else
    let expr2 := if !(expr.has .EPS) then expr.subs .R (.mul (.sym .EPS) (.sym .R))
                 else expr
    let tolOk :=
      match tol with
      | none => true
      | some t => !(t.hasWhere tolOutside)
    if tolOk then
      .ok { expr := expr2, tol := tol, cache := [], limits := limits.getD [] }
    else
      .error .invalidTolerance

/-- The coordinate symbols `sympy.symbols('x:dim')`. -/
def x_sym (dim : Nat) : List Sym := (List.range dim).map Sym.xv

/-- The center-coordinate symbols `sympy.symbols('c:dim')`. -/
def c_sym (dim : Nat) : List Sym := (List.range dim).map Sym.cv

/-- The symbolic radial distance
`sympy.sqrt(sum((xi-ci)**2 for xi,ci in zip(x_sym,c_sym)))` (Python's
`sum` starts from `0`). -/
def r_sym (dim : Nat) : Expr :=
  .sqrt (((x_sym dim).zip (c_sym dim)).foldl
    (fun acc p => .add acc (.pow (Expr.sub (.sym p.1) (.sym p.2)) 2))
    (.num 0))

/-- Substitute the radial distance for `r` and differentiate along each
axis the number of times given by `diff` (lines 324–331 of the source:
an axis with order 0 is skipped). -/
def diffedExpr (base : Expr) (diff : List Nat) : Expr :=
  let dim := diff.length
  let e := base.subs .R (r_sym dim)
  ((x_sym dim).zip diff).foldl
    (fun acc p => if p.2 = 0 then acc else (Expr.d p.1)^[p.2] acc) e

/-- The sequential symbolic limit of lines 342–344: starting from the
differentiated expression, take the limit with respect to each coordinate
variable toward its center coordinate, one axis at a time.  `limitFn`
models sympy's one-directional `limit` engine (an external collaborator
of this module). -/
def seqLimit (limitFn : Sym → Sym → Expr → Expr) (dim : Nat) (e : Expr) : Expr :=
  ((x_sym dim).zip (c_sym dim)).foldl (fun acc p => limitFn p.1 p.2 acc) e

/-- The expression compiled by `add_diff_to_cache` (lines 321–348): the
differentiated expression, wrapped — only when `tol` is set — in a
piecewise expression whose limiting value comes from the `limits` table
when the key is present and from the sequential symbolic limit
otherwise. -/
def RBF.compileDiff (self : RBF) (limitFn : Sym → Sym → Expr → Expr)
    (diff : List Nat) : Expr :=
  let dim := diff.length
  let dexpr := diffedExpr self.expr diff
  match self.tol with
  | none => dexpr
  | some t =>
      let lim :=
        match lookupAssoc self.limits diff with
        | some l => l
        | none => seqLimit limitFn dim dexpr
      .piecewise lim (r_sym dim) t dexpr

/-- Model of `RBF.add_diff_to_cache(diff)`: convert `diff` to a tuple,
check it is one-dimensional (`np.shape` of a tuple of ints is `(len,)`,
so this always passes), build the compiled expression, and store it in
the cache under the `diff` key. -/
def RBF.add_diff_to_cache (self : RBF) (limitFn : Sym → Sym → Expr → Expr)
    (diff : List Nat) : Except RBFError RBF :=
  match assert_shape [diff.length] [none] "diff" with
  | .error e => .error e
  | .ok _ =>
      .ok { self with cache := updateAssoc self.cache diff (self.compileDiff limitFn diff) }

/-- The derivative argument of `__call__` as the caller passes it: a
Python list or tuple of per-axis orders (line 286 converts either to a
tuple before any cache interaction). -/
inductive DiffArg where
  | list : List Nat → DiffArg
  | tup : List Nat → DiffArg
deriving DecidableEq, Repr

/-- Model of `tuple(diff)` on line 286. -/
def DiffArg.toTuple : DiffArg → List Nat
  | .list l => l
  | .tup l => l

/-- The symbol assignment at one broadcast position `(i, j)`: coordinate
symbols read the evaluation-point row and the center row, `eps` reads the
per-center shape parameter.  Compiled expressions contain neither `r` nor
foreign symbols. -/
def mkAssign (xr cr : List Q) (e : Q) : Sym → Q
  | .xv i => xr.getD i 0
  | .cv i => cr.getD i 0
  | .EPS => e
  | .R => 0
  | .other _ => 0

/-- The broadcast evaluation of a compiled expression: entry `(i, j)` of
the result evaluates the expression at evaluation-point row `i`, center
row `j`, and the `j`-th shape parameter — the model of
`self.cache[diff](*args)` after the transposes on lines 290–291 and 296. -/
def outMatrix (compiled : Expr) (xrows crows : List (List Q)) (epsArr : List Q) :
    List (List (Option Q)) :=
  xrows.map (fun xr =>
    (crows.zip epsArr).map (fun p => compiled.evalE (mkAssign xr p.1 p.2)))

/-- Model of `RBF.__call__(x, c, eps=1.0, diff=None)`: validate `x`
(rank 2), `c` (rank 2 with matching second axis), broadcast a scalar
`eps` to the number of centers and validate its shape, default `diff` to
all zeros (length = spatial dimension) or convert it to a tuple, validate
its length, compile on a cache miss, and evaluate the cached expression
over all broadcast positions. -/
def RBF.call (self : RBF) (limitFn : Sym → Sym → Expr → Expr)
    (x c eps : NDArr) (diffArg : Option DiffArg) :
    Except RBFError (RBF × List (List (Option Q))) :=
  match assert_shape x.shape [none, none] "x" with
  | .error e => .error e
  | .ok _ =>
  match assert_shape c.shape [none, some (x.shape.getD 1 0)] "c" with
  | .error e => .error e
  | .ok _ =>
  let M := c.shape.getD 0 0
  let epsShape : List Nat :=
    match eps with
    | .a0 _ => [M]
    | .a1 v => [v.length]
    | .a2 m v => [v.length, m]
  match assert_shape epsShape [some M] "eps" with
  | .error e => .error e
  | .ok _ =>
  let D := x.shape.getD 1 0
  let diff : List Nat :=
    match diffArg with
    | none => List.replicate D 0
    | some s => s.toTuple
  match assert_shape [diff.length] [some D] "diff" with
  | .error e => .error e
  | .ok _ =>
  let epsArr : List Q :=
    match eps with
    | .a0 v => List.replicate M v
    | .a1 v => v
    | .a2 _ _ => []
  match lookupAssoc self.cache diff with
  | some f => .ok (self, outMatrix f x.rows c.rows epsArr)
  | none =>
      match self.add_diff_to_cache limitFn diff with
      | .error e => .error e
      | .ok s2 =>
          .ok (s2, outMatrix ((lookupAssoc s2.cache diff).getD (.num 0)) x.rows c.rows epsArr)

/-- Modelled from the spec: `rbf.poly.powers`, the package's
combinatorial index-generation helper (its module is not under `src/`),
which enumerates the derivative multi-indices in `dim` dimensions of
total order at most `order`; it is consumed only to pre-populate the
known-limit tables of the predefined catalog. -/
def powers (order dim : Nat) : List (List Nat) :=
  match dim with
  | 0 => [[]]
  | d + 1 =>
      (List.range (order + 1)).flatMap
        (fun k => (powers (order - k) d).map (fun t => k :: t))

/-- The first-order polyharmonic spline as constructed on line 362:
`phs1 = RBF(_EPS*_R)` (before the tolerance and limit tables are
attached). -/
def phs1Base : RBF :=
  (RBF.init (.mul (.sym .EPS) (.sym .R)) none none).toOption.getD
    { expr := .num 0, tol := none, cache := [], limits := [] }

/-- The tolerance `1e-10` attached to `phs1` (exact rational reading of
the literal, given in normalized form so that it evaluates). -/
def phs1Tol : Q := ⟨1, 10000000000, by norm_num, by norm_num⟩

/-- `phs1` after lines 373–376: tolerance `1e-10` and the limit tables
`phs1.limits[tuple(i)] = 0` for every `i` in `powers(0, d)`,
`d = 1, 2, 3`. -/
def phs1 : RBF :=
  { phs1Base with
    tol := some (.num phs1Tol),
    limits := (powers 0 1 ++ powers 0 2 ++ powers 0 3).foldl
      (fun m t => updateAssoc m t (.num 0)) phs1Base.limits }

/-! ### Helper lemmas -/

/-- `add_diff_to_cache` never fails (the shape check on a tuple of ints
always passes) and performs exactly one cache update. -/
theorem add_diff_to_cache_eq (self : RBF) (limitFn : Sym → Sym → Expr → Expr)
    (diff : List Nat) :
    self.add_diff_to_cache limitFn diff =
      .ok { self with cache := updateAssoc self.cache diff (self.compileDiff limitFn diff) } := by
  simp [RBF.add_diff_to_cache, assert_shape, checkAxes]

/-- Reading back the key just written. -/
theorem lookup_updateAssoc_self (m : List (List Nat × Expr)) (k : List Nat) (v : Expr) :
    lookupAssoc (updateAssoc m k v) k = some v := by
  induction m with
  | nil => simp [updateAssoc, lookupAssoc]
  | cons p t ih =>
      by_cases h : p.1 = k
      · simp [updateAssoc, lookupAssoc, h]
      · simp [updateAssoc, lookupAssoc, h, ih]

/-- Writing an absent key appends it, preserving all existing entries. -/
theorem updateAssoc_of_lookup_none (m : List (List Nat × Expr)) (k : List Nat) (v : Expr)
    (h : lookupAssoc m k = none) : updateAssoc m k v = m ++ [(k, v)] := by
  induction m with
  | nil => simp [updateAssoc]
  | cons p t ih =>
      by_cases hp : p.1 = k
      · simp [lookupAssoc, hp] at h
      · simp [lookupAssoc, hp] at h
        simp [updateAssoc, hp, ih h]

/-- Relation between the `eps` argument, the number of centers `M`, and
the rank-1 shape-parameter array the call works with: a scalar is
broadcast to all `M` centers (`np.full`), a rank-1 array is used as is
and must have length `M`; a rank-2 `eps` never reaches this point. -/
def epsOk : NDArr → Nat → List Q → Prop
  | .a0 v, M, arr => arr = List.replicate M v
  | .a1 v, M, arr => arr = v ∧ v.length = M
  | .a2 _ _, _, _ => False

/-- Normal form of a shape-valid `__call__`: a cache hit evaluates the
cached expression and leaves the definition untouched; a cache miss
stores and evaluates the newly compiled expression. -/
theorem call_unfold (self : RBF) (limitFn : Sym → Sym → Expr → Expr) (d : Nat)
    (xrows crows : List (List Q)) (eps : NDArr) (epsArr : List Q)
    (he : epsOk eps crows.length epsArr)
    (diffArg : Option DiffArg) (key : List Nat)
    (hkey : key = (match diffArg with
                   | none => List.replicate d 0
                   | some s => s.toTuple))
    (hlen : key.length = d) :
    self.call limitFn (.a2 d xrows) (.a2 d crows) eps diffArg =
      match lookupAssoc self.cache key with
      | some f => .ok (self, outMatrix f xrows crows epsArr)
      | none =>
          .ok ({ self with cache := updateAssoc self.cache key (self.compileDiff limitFn key) },
               outMatrix (self.compileDiff limitFn key) xrows crows epsArr) := by
  cases diffArg with
  | none =>
      replace hkey : key = List.replicate d 0 := hkey
      subst hkey
      cases eps with
      | a0 v =>
          simp only [epsOk] at he
          subst he
          simp only [RBF.call, NDArr.shape, NDArr.rows, assert_shape, checkAxes,
            List.length_cons, List.length_nil, List.zip, List.zipWith, List.getD,
            List.length_replicate, add_diff_to_cache_eq]
          simp only [List.get?_cons_zero, List.get?_cons_succ, Option.getD_some,
            if_true, eq_self_iff_true]
          cases h : lookupAssoc self.cache (List.replicate d 0) with
          | some f => simp
          | none => simp [lookup_updateAssoc_self]
      | a1 v =>
          obtain ⟨he1, he2⟩ := he
          subst he1
          simp only [RBF.call, NDArr.shape, NDArr.rows, assert_shape, checkAxes,
            List.length_cons, List.length_nil, List.zip, List.zipWith, List.getD,
            List.length_replicate, add_diff_to_cache_eq]
          simp only [List.get?_cons_zero, List.get?_cons_succ, Option.getD_some,
            if_true, eq_self_iff_true, he2]
          cases h : lookupAssoc self.cache (List.replicate d 0) with
          | some f => simp
          | none => simp [lookup_updateAssoc_self]
      | a2 m v => exact absurd he (by simp [epsOk])
  | some s =>
      replace hkey : key = s.toTuple := hkey
      subst hkey
      cases eps with
      | a0 v =>
          simp only [epsOk] at he
          subst he
          simp only [RBF.call, NDArr.shape, NDArr.rows, assert_shape, checkAxes,
            List.length_cons, List.length_nil, List.zip, List.zipWith, List.getD,
            List.length_replicate, add_diff_to_cache_eq]
          simp only [List.get?_cons_zero, List.get?_cons_succ, Option.getD_some,
            if_true, eq_self_iff_true, hlen]
          cases h : lookupAssoc self.cache s.toTuple with
          | some f => simp
          | none => simp [lookup_updateAssoc_self]
      | a1 v =>
          obtain ⟨he1, he2⟩ := he
          subst he1
          simp only [RBF.call, NDArr.shape, NDArr.rows, assert_shape, checkAxes,
            List.length_cons, List.length_nil, List.zip, List.zipWith, List.getD,
            List.length_replicate, add_diff_to_cache_eq]
          simp only [List.get?_cons_zero, List.get?_cons_succ, Option.getD_some,
            if_true, eq_self_iff_true, he2, hlen]
          cases h : lookupAssoc self.cache s.toTuple with
          | some f => simp
          | none => simp [lookup_updateAssoc_self]
      | a2 m v => exact absurd he (by simp [epsOk])

/-- Folding `add` over expressions that all evaluate to `0` keeps the
accumulator's value. -/
theorem evalE_foldl_add {α : Type} (va : Sym → Q) (l : List α) (g : α → Expr)
    (acc : Expr) (v : Q) (ha : acc.evalE va = some v)
    (h : ∀ a ∈ l, (g a).evalE va = some 0) :
    (l.foldl (fun acc2 a => Expr.add acc2 (g a)) acc).evalE va = some v := by
  induction l generalizing acc v with
  | nil => simpa using ha
  | cons e t ih =>
      simp only [List.foldl_cons]
      apply ih
      · simp [Expr.evalE, ha, h e (List.mem_cons_self e t)]
      · intro e2 he2
        exact h e2 (List.mem_cons_of_mem _ he2)

/-- The symbolic radial distance evaluates to exactly `0` when the
evaluation-point row coincides with the center row. -/
theorem eval_r_sym_center (d : Nat) (rr : List Q) (ε : Q) :
    (r_sym d).evalE (mkAssign rr rr ε) = some 0 := by
  have hz : ((x_sym d).zip (c_sym d)) =
      (List.range d).map (fun k => (Sym.xv k, Sym.cv k)) := by
    simp [x_sym, c_sym, List.zip_map']
  have hin : (((x_sym d).zip (c_sym d)).foldl
      (fun acc p => Expr.add acc (.pow (Expr.sub (.sym p.1) (.sym p.2)) 2))
      (.num 0)).evalE (mkAssign rr rr ε) = some 0 := by
    rw [hz, List.foldl_map]
    apply evalE_foldl_add
    · simp [Expr.evalE]
    · intro k _
      simp [Expr.evalE, Expr.sub, mkAssign]
  simp [r_sym, Expr.evalE, hin, ratSqrt]

/-- The shape-parameter array the call works with has one entry per
center. -/
theorem epsOk_length {eps : NDArr} {M : Nat} {arr : List Q} (he : epsOk eps M arr) :
    arr.length = M := by
  cases eps with
  | a0 v => simp [epsOk] at he; simp [he]
  | a1 v => obtain ⟨h1, h2⟩ := he; subst h1; exact h2
  | a2 m v => exact absurd he (by simp [epsOk])

/-- The broadcast output has one row per evaluation point and one column
per center. -/
theorem outMatrix_shape (compiled : Expr) (xrows crows : List (List Q))
    (epsArr : List Q) (hlen : epsArr.length = crows.length) :
    (outMatrix compiled xrows crows epsArr).length = xrows.length ∧
    ∀ row ∈ outMatrix compiled xrows crows epsArr, row.length = crows.length := by
  constructor
  · simp [outMatrix]
  · intro row hrow
    simp only [outMatrix, List.mem_map] at hrow
    obtain ⟨xr, _, hr⟩ := hrow
    simp [← hr, List.length_zip, hlen]

/-- Reading a mapped list below its length applies the function to the
indexed element. -/
theorem getD_map {α β : Type} (f : α → β) (l : List α) (i : Nat) (hi : i < l.length)
    (dfl : β) : (l.map f).getD i dfl = f l[i] := by
  rw [List.getD_eq_getElem _ _ (by simpa using hi), List.getElem_map]

/-- Evaluation of the two-branch piecewise expression when both condition
operands evaluate: compare and pick the branch. -/
theorem evalE_piecewise (va : Sym → Q) (v l r e : Expr) (lv rv : Q)
    (hl : l.evalE va = some lv) (hr : r.evalE va = some rv) :
    (Expr.piecewise v l r e).evalE va =
      if lv < rv then v.evalE va else e.evalE va := by
  simp [Expr.evalE, hl, hr]

/-- A stand-in for the symbolic limit engine, used to instantiate
witnesses (claim theorems hold for every limit function). -/
def idLimit : Sym → Sym → Expr → Expr := fun _ _ e => e

instance {ε α : Type} [DecidableEq ε] [DecidableEq α] : DecidableEq (Except ε α) :=
  fun x y =>
    match x, y with
    | .error a, .error b =>
        if h : a = b then isTrue (by rw [h]) else
          isFalse (by intro hc; injection hc with hc2; exact h hc2)
    | .ok a, .ok b =>
        if h : a = b then isTrue (by rw [h]) else
          isFalse (by intro hc; injection hc with hc2; exact h hc2)
    | .error _, .ok _ => isFalse (by intro hc; cases hc)
    | .ok _, .error _ => isFalse (by intro hc; cases hc)

/-! ### Claim theorems -/

/-- C1: with tolerance set, compiling a derivative first looks the
multi-index up in the `limits` table, falling back to the sequential
symbolic limit only when the key is absent, and wraps the result in a
two-branch piecewise expression (limiting value when the symbolic radial
distance is below the tolerance, differentiated expression otherwise);
with no tolerance there is no piecewise construction and the result is
independent of the limits table.  The final conjunct makes the
"sequentially one axis at a time" reading explicit. -/
theorem c1_compile_lookup_order (limitFn : Sym → Sym → Expr → Expr)
    (self : RBF) (diff : List Nat) :
    (∀ t lim, self.tol = some t → lookupAssoc self.limits diff = some lim →
      self.add_diff_to_cache limitFn diff =
        .ok { self with cache := (updateAssoc self.cache diff (.piecewise lim (r_sym diff.length) t (diffedExpr self.expr diff))) }) ∧
    (∀ t, self.tol = some t → lookupAssoc self.limits diff = none →
      self.add_diff_to_cache limitFn diff =
        .ok { self with cache := (updateAssoc self.cache diff (.piecewise (seqLimit limitFn diff.length (diffedExpr self.expr diff)) (r_sym diff.length) t (diffedExpr self.expr diff))) }) ∧
    (self.tol = none → ∀ lims2,
      RBF.add_diff_to_cache { self with limits := lims2 } limitFn diff =
        .ok { self with limits := lims2, cache := (updateAssoc self.cache diff (diffedExpr self.expr diff)) }) ∧
    (∀ n e, seqLimit limitFn (n + 1) e =
      limitFn (.xv n) (.cv n) (seqLimit limitFn n e)) := by
  refine ⟨?_, ?_, ?_, ?_⟩
  · intro t lim ht hl
    rw [add_diff_to_cache_eq]
    simp [RBF.compileDiff, ht, hl]
  · intro t ht hl
    rw [add_diff_to_cache_eq]
    simp [RBF.compileDiff, ht, hl]
  · intro ht lims2
    rw [add_diff_to_cache_eq]
    simp [RBF.compileDiff, ht]
  · intro n e
    simp only [seqLimit, x_sym, c_sym, List.range_succ, List.map_append,
      List.map_cons, List.map_nil]
    rw [List.zip_append (by simp)]
    simp [List.zip_map', List.foldl_map, List.foldl_append]

/-- Witness for C1: the table-hit case at `phs1` with the zeroth
derivative in one dimension, the symbolic-fallback case at a definition
with a tolerance but an empty limits table, and the no-tolerance case. -/
theorem c1_compile_lookup_order_witness :
    (phs1.add_diff_to_cache idLimit [0] =
      .ok { phs1 with cache := (updateAssoc phs1.cache [0] (.piecewise (.num 0) (r_sym 1) (.num phs1Tol) (diffedExpr phs1.expr [0]))) }) ∧
    (RBF.add_diff_to_cache ⟨.mul (.sym .EPS) (.sym .R), some (.num 1), [], []⟩ idLimit [0] =
      .ok ⟨.mul (.sym .EPS) (.sym .R), some (.num 1),
        updateAssoc [] [0]
          (.piecewise (seqLimit idLimit 1 (diffedExpr (.mul (.sym .EPS) (.sym .R)) [0]))
            (r_sym 1) (.num 1) (diffedExpr (.mul (.sym .EPS) (.sym .R)) [0])), []⟩) ∧
    (RBF.add_diff_to_cache ⟨.mul (.sym .EPS) (.sym .R), none, [], []⟩ idLimit [0] =
      .ok ⟨.mul (.sym .EPS) (.sym .R), none,
        updateAssoc [] [0] (diffedExpr (.mul (.sym .EPS) (.sym .R)) [0]), []⟩) :=
  ⟨(c1_compile_lookup_order idLimit phs1 [0]).1 (.num phs1Tol) (.num 0) rfl (by decide),
   (c1_compile_lookup_order idLimit ⟨.mul (.sym .EPS) (.sym .R), some (.num 1), [], []⟩ [0]).2.1
     (.num 1) rfl (by decide),
   (c1_compile_lookup_order idLimit ⟨.mul (.sym .EPS) (.sym .R), none, [], []⟩ [0]).2.2.1
     rfl []⟩

/-- C2: for `phs1` (expression `eps*r`, tolerance `1e-10`, zero limits
for the all-zeros multi-index in dimensions 1–3), an `evaluate` call with
`diff` omitted returns exactly `0` (not NaN, i.e. not `none`) at every
entry whose evaluation point coincides with the center. -/
theorem c2_phs1_center_zero (limitFn : Sym → Sym → Expr → Expr) (d : Nat)
    (hd : d = 1 ∨ d = 2 ∨ d = 3) (xrows crows : List (List Q)) (ε : Q) (i j : Nat)
    (hi : i < xrows.length) (hj : j < crows.length)
    (hrow : xrows.getD i [] = crows.getD j []) :
    ∃ rbf2 out,
      phs1.call limitFn (.a2 d xrows) (.a2 d crows) (.a0 ε) none = .ok (rbf2, out) ∧
      (out.getD i []).getD j none = some 0 := by
  have hu := call_unfold phs1 limitFn d xrows crows (.a0 ε)
    (List.replicate crows.length ε) (by simp [epsOk]) none (List.replicate d 0) rfl
    (List.length_replicate _ _)
  have hcache : lookupAssoc phs1.cache (List.replicate d 0) = none := by
    rcases hd with h | h | h <;> subst h <;> rfl
  rw [hcache] at hu
  refine ⟨_, _, hu, ?_⟩
  have hcomp : phs1.compileDiff limitFn (List.replicate d 0) =
      .piecewise (.num 0) (r_sym d) (.num phs1Tol)
        (diffedExpr phs1.expr (List.replicate d 0)) := by
    rcases hd with h | h | h <;> subst h <;> rfl
  have hx : xrows[i] = crows[j] := by
    rwa [List.getD_eq_getElem _ _ hi, List.getD_eq_getElem _ _ hj] at hrow
  have hjz : j < (crows.zip (List.replicate crows.length ε)).length := by
    simpa [List.length_zip, List.length_replicate] using hj
  have hpos : (0 : Q) < phs1Tol := by decide
  simp only [outMatrix]
  rw [getD_map _ _ _ hi, getD_map _ _ _ hjz]
  simp only [List.getElem_zip, List.getElem_replicate]
  rw [hx, hcomp]
  rw [evalE_piecewise _ _ _ _ _ 0 phs1Tol (eval_r_sym_center d (crows[j]) ε)
    (show Expr.evalE (mkAssign (crows[j]) (crows[j]) ε) (.num phs1Tol) = some phs1Tol from rfl)]
  rw [if_pos hpos]
  rfl

/-- Witness for C2: a one-dimensional evaluation of `phs1` at a point
equal to the center yields exactly `0`. -/
theorem c2_phs1_center_zero_witness :
    ∃ rbf2 out,
      phs1.call idLimit (.a2 1 [[5]]) (.a2 1 [[5]]) (.a0 1) none = .ok (rbf2, out) ∧
      (out.getD 0 []).getD 0 none = some 0 :=
  c2_phs1_center_zero idLimit 1 (Or.inl rfl) [[5]] [[5]] 1 0 0 (by decide) (by decide)
    (by decide)

/-- C3: every shape-valid `evaluate` call with `diff` omitted succeeds
and returns a matrix with one row per evaluation point and one column per
center. -/
theorem c3_output_shape (limitFn : Sym → Sym → Expr → Expr) (self : RBF) (d : Nat)
    (xrows crows : List (List Q))
    (hx : ∀ r ∈ xrows, r.length = d) (hc : ∀ r ∈ crows, r.length = d)
    (eps : NDArr) (epsArr : List Q) (he : epsOk eps crows.length epsArr) :
    ∃ rbf2 out,
      self.call limitFn (.a2 d xrows) (.a2 d crows) eps none = .ok (rbf2, out) ∧
      out.length = xrows.length ∧ ∀ row ∈ out, row.length = crows.length := by
  have hu := call_unfold self limitFn d xrows crows eps epsArr he none
    (List.replicate d 0) rfl (List.length_replicate _ _)
  cases hq : lookupAssoc self.cache (List.replicate d 0) with
  | some f =>
      rw [hq] at hu
      exact ⟨_, _, hu, outMatrix_shape _ _ _ _ (epsOk_length he)⟩
  | none =>
      rw [hq] at hu
      exact ⟨_, _, hu, outMatrix_shape _ _ _ _ (epsOk_length he)⟩

/-- Witness for C3: a 2-point, 3-center, 2-dimensional evaluation with a
scalar shape parameter returns a 2×3 matrix. -/
theorem c3_output_shape_witness :
    ∃ rbf2 out,
      phs1.call idLimit (.a2 2 [[0, 0], [1, 2]]) (.a2 2 [[0, 0], [3, 4], [5, 6]])
        (.a0 1) none = .ok (rbf2, out) ∧
      out.length = 2 ∧ ∀ row ∈ out, row.length = 3 := by
  have h := c3_output_shape idLimit phs1 2 [[0, 0], [1, 2]] [[0, 0], [3, 4], [5, 6]]
    (by decide) (by decide) (.a0 1) (List.replicate 3 1) (by simp [epsOk])
  simpa using h

/-- If `e` contains the symbol `s` and the replacement contains a symbol
satisfying `p`, then the substitution result contains a symbol satisfying
`p`. -/
theorem hasWhere_subs (p : Sym → Bool) (e : Expr) (s : Sym) (rep : Expr)
    (hrep : rep.hasWhere p = true) (h : e.has s = true) :
    (e.subs s rep).hasWhere p = true := by
  induction e with
  | sym t =>
      have ht : (t == s) = true := by simpa [Expr.has, Expr.hasWhere] using h
      simpa [Expr.subs, ht] using hrep
  | num q => exact absurd h (by simp [Expr.has, Expr.hasWhere])
  | add a b iha ihb =>
      have h2 : a.has s = true ∨ b.has s = true := by
        simpa [Expr.has, Expr.hasWhere, Bool.or_eq_true] using h
      rcases h2 with h2 | h2
      · simp [Expr.subs, Expr.hasWhere, iha h2]
      · simp [Expr.subs, Expr.hasWhere, ihb h2]
  | neg a iha =>
      have h2 : a.has s = true := by simpa [Expr.has, Expr.hasWhere] using h
      simpa [Expr.subs, Expr.hasWhere] using iha h2
  | mul a b iha ihb =>
      have h2 : a.has s = true ∨ b.has s = true := by
        simpa [Expr.has, Expr.hasWhere, Bool.or_eq_true] using h
      rcases h2 with h2 | h2
      · simp [Expr.subs, Expr.hasWhere, iha h2]
      · simp [Expr.subs, Expr.hasWhere, ihb h2]
  | div a b iha ihb =>
      have h2 : a.has s = true ∨ b.has s = true := by
        simpa [Expr.has, Expr.hasWhere, Bool.or_eq_true] using h
      rcases h2 with h2 | h2
      · simp [Expr.subs, Expr.hasWhere, iha h2]
      · simp [Expr.subs, Expr.hasWhere, ihb h2]
  | pow a n iha =>
      have h2 : a.has s = true := by simpa [Expr.has, Expr.hasWhere] using h
      simpa [Expr.subs, Expr.hasWhere] using iha h2
  | sqrt a iha =>
      have h2 : a.has s = true := by simpa [Expr.has, Expr.hasWhere] using h
      simpa [Expr.subs, Expr.hasWhere] using iha h2
  | log a iha =>
      have h2 : a.has s = true := by simpa [Expr.has, Expr.hasWhere] using h
      simpa [Expr.subs, Expr.hasWhere] using iha h2
  | exp a iha =>
      have h2 : a.has s = true := by simpa [Expr.has, Expr.hasWhere] using h
      simpa [Expr.subs, Expr.hasWhere] using iha h2
  | piecewise v l r e2 ihv ihl ihr ihe =>
      have h2 : ((v.has s = true ∨ l.has s = true) ∨ r.has s = true) ∨ e2.has s = true := by
        simpa [Expr.has, Expr.hasWhere, Bool.or_eq_true] using h
      rcases h2 with ((h2 | h2) | h2) | h2
      · simp [Expr.subs, Expr.hasWhere, ihv h2]
      · simp [Expr.subs, Expr.hasWhere, ihl h2]
      · simp [Expr.subs, Expr.hasWhere, ihr h2]
      · simp [Expr.subs, Expr.hasWhere, ihe h2]

/-- Inversion of a successful construction: the checks passed, the stored
expression is the (possibly `eps*r`-substituted) input, the cache starts
empty, and `limits` defaults to the empty table. -/
theorem init_ok_inv (e : Expr) (tol : Option Expr)
    (limits : Option (List (List Nat × Expr))) (rbf : RBF)
    (h : RBF.init e tol limits = .ok rbf) :
    rbf.expr = (if !(e.has .EPS) then e.subs .R (.mul (.sym .EPS) (.sym .R)) else e) ∧
    e.has .R = true ∧ rbf.tol = tol ∧ rbf.cache = [] ∧ rbf.limits = limits.getD [] := by
  unfold RBF.init at h
  by_cases h1 : e.hasWhere symOutside = true
  · rw [if_pos h1] at h
    exact absurd h (by simp)
  · rw [if_neg h1] at h
    by_cases h2 : (!(e.has .R)) = true
    · rw [if_pos h2] at h
      exact absurd h (by simp)
    · rw [if_neg h2] at h
      have hR : e.has .R = true := by
        cases hhr : e.has .R with
        | true => rfl
        | false => exact absurd (by simp [hhr]) h2
      cases tol with
      | none =>
          dsimp only at h
          rw [if_pos rfl] at h
          injection h with h4
          subst h4
          exact ⟨rfl, hR, rfl, rfl, rfl⟩
      | some t =>
          dsimp only at h
          by_cases h3 : (!(t.hasWhere tolOutside)) = true
          · rw [if_pos h3] at h
            injection h with h4
            subst h4
            exact ⟨rfl, hR, rfl, rfl, rfl⟩
          · rw [if_neg h3] at h
            exact absurd h (by simp)

/-- C4: construction fails with `InvalidSymbols` when the expression has
a free symbol outside `{r, eps}`, and (that check passing) with
`MissingRadialVariable` when it does not depend on `r`; in both cases the
result is an error, so no partial definition is returned. -/
theorem c4_construction_validation (e : Expr) (tol : Option Expr)
    (limits : Option (List (List Nat × Expr))) :
    (e.hasWhere symOutside = true →
      RBF.init e tol limits = .error .invalidSymbols) ∧
    (e.hasWhere symOutside = false → e.has .R = false →
      RBF.init e tol limits = .error .missingRadialVariable) := by
  constructor
  · intro h
    simp [RBF.init, h]
  · intro h1 h2
    simp [RBF.init, h1, h2]

/-- Witness for C4: an expression with a foreign symbol is rejected as
`InvalidSymbols`; an expression in `eps` alone is rejected as
`MissingRadialVariable`. -/
theorem c4_construction_validation_witness :
    RBF.init (.sym (.other "a")) none none = .error .invalidSymbols ∧
    RBF.init (.sym .EPS) none none = .error .missingRadialVariable :=
  ⟨(c4_construction_validation (.sym (.other "a")) none none).1 (by decide),
   (c4_construction_validation (.sym .EPS) none none).2 (by decide) (by decide)⟩

/-- C7: an accepted expression depending on `r` but not `eps` is stored
with `eps*r` substituted for `r`; one already depending on `eps` is
stored unchanged; either way the stored expression depends on `eps`. -/
theorem c7_eps_substitution (e : Expr) (tol : Option Expr)
    (limits : Option (List (List Nat × Expr))) (rbf : RBF)
    (h : RBF.init e tol limits = .ok rbf) :
    (e.has .EPS = true → rbf.expr = e) ∧
    (e.has .EPS = false → rbf.expr = e.subs .R (.mul (.sym .EPS) (.sym .R))) ∧
    rbf.expr.has .EPS = true := by
  obtain ⟨hexpr, hR, -, -, -⟩ := init_ok_inv e tol limits rbf h
  cases heps : e.has .EPS with
  | true =>
      refine ⟨?_, ?_, ?_⟩
      · intro _
        rw [hexpr, heps]
        rfl
      · intro hc
        simp at hc
      · rw [hexpr, heps]
        simpa using heps
  | false =>
      refine ⟨?_, ?_, ?_⟩
      · intro hc
        simp at hc
      · intro _
        rw [hexpr, heps]
        rfl
      · rw [hexpr, heps]
        exact hasWhere_subs _ e .R _ (by rfl) hR

/-- Witness for C7: `r^3` (no `eps`) is stored as `(eps*r)^3`, and the
stored expression depends on `eps`. -/
theorem c7_eps_substitution_witness :
    ((.pow (.sym .R) 3 : Expr).has .EPS = false →
      (RBF.mk (.pow (.mul (.sym .EPS) (.sym .R)) 3) none [] []).expr =
        (.pow (.sym .R) 3 : Expr).subs .R (.mul (.sym .EPS) (.sym .R))) ∧
    (RBF.mk (.pow (.mul (.sym .EPS) (.sym .R)) 3) none [] []).expr.has .EPS = true := by
  have h := c7_eps_substitution (.pow (.sym .R) 3) none none
    (RBF.mk (.pow (.mul (.sym .EPS) (.sym .R)) 3) none [] []) (by rfl)
  exact ⟨h.2.1, h.2.2⟩

/-- C5: shape-invalid calls fail with the structured shape error before
any compilation or evaluation work: `x` of rank other than 2 yields the
rank error naming the label and both ranks; a rank-2 `c` whose second
axis differs from `x`'s yields the axis error naming axis 1, the label,
and both lengths; a rank-1 `eps` whose length differs from the number of
centers yields the axis error on axis 0.  The conclusion is an error for
every definition state, so no cache mutation and no partial output can
occur. -/
theorem c5_shape_mismatch_errors (limitFn : Sym → Sym → Expr → Expr) (self : RBF) :
    (∀ (x c eps : NDArr) (dA : Option DiffArg), x.shape.length ≠ 2 →
      self.call limitFn x c eps dA = .error (.dimMismatch "x" x.shape.length 2)) ∧
    (∀ (d : Nat) (xrows : List (List Q)) (m : Nat) (crows : List (List Q))
        (eps : NDArr) (dA : Option DiffArg), m ≠ d →
      self.call limitFn (.a2 d xrows) (.a2 m crows) eps dA =
        .error (.axisMismatch 1 "c" m d)) ∧
    (∀ (d : Nat) (xrows crows : List (List Q)) (l : List Q) (dA : Option DiffArg),
        l.length ≠ crows.length →
      self.call limitFn (.a2 d xrows) (.a2 d crows) (.a1 l) dA =
        .error (.axisMismatch 0 "eps" l.length crows.length)) := by
  refine ⟨?_, ?_, ?_⟩
  · intro x c eps dA hx
    cases x with
    | a0 v => simp [RBF.call, NDArr.shape, assert_shape]
    | a1 v => simp [RBF.call, NDArr.shape, assert_shape]
    | a2 m v => simp [NDArr.shape] at hx
  · intro d xrows m crows eps dA hmd
    simp [RBF.call, NDArr.shape, assert_shape, checkAxes, List.getD, hmd]
  · intro d xrows crows l dA hl
    simp [RBF.call, NDArr.shape, assert_shape, checkAxes, List.getD, hl]

/-- Witness for C5: a rank-1 `x`, a center array of mismatched dimension,
and a 2-entry `eps` against one center each produce the corresponding
error. -/
theorem c5_shape_mismatch_errors_witness :
    (phs1.call idLimit (.a1 [1]) (.a2 1 [[0]]) (.a0 1) none =
      .error (.dimMismatch "x" 1 2)) ∧
    (phs1.call idLimit (.a2 1 [[1]]) (.a2 2 [[0, 0]]) (.a0 1) none =
      .error (.axisMismatch 1 "c" 2 1)) ∧
    (phs1.call idLimit (.a2 1 [[1]]) (.a2 1 [[0]]) (.a1 [1, 2]) none =
      .error (.axisMismatch 0 "eps" 2 1)) :=
  ⟨(c5_shape_mismatch_errors idLimit phs1).1 (.a1 [1]) (.a2 1 [[0]]) (.a0 1) none
      (by decide),
   (c5_shape_mismatch_errors idLimit phs1).2.1 1 [[1]] 2 [[0, 0]] (.a0 1) none
      (by decide),
   (c5_shape_mismatch_errors idLimit phs1).2.2 1 [[1]] [[0]] [1, 2] none (by decide)⟩

/-- C9: an explicitly given `diff` whose length differs from the spatial
dimension of `x` fails the shape check before the cache is consulted or
mutated: for every definition state (in particular one where that `diff`
key is already cached from a call with a different spatial dimension) the
call returns the `diff` axis error. -/
theorem c9_diff_dim_mismatch (limitFn : Sym → Sym → Expr → Expr) (self : RBF)
    (d : Nat) (xrows crows : List (List Q)) (eps : NDArr) (epsArr : List Q)
    (he : epsOk eps crows.length epsArr) (s : DiffArg)
    (hlen : s.toTuple.length ≠ d) :
    self.call limitFn (.a2 d xrows) (.a2 d crows) eps (some s) =
      .error (.axisMismatch 0 "diff" s.toTuple.length d) := by
  cases eps with
  | a0 v => simp [RBF.call, NDArr.shape, assert_shape, checkAxes, List.getD, hlen]
  | a1 v =>
      obtain ⟨-, he2⟩ := he
      simp [RBF.call, NDArr.shape, assert_shape, checkAxes, List.getD, hlen, he2]
  | a2 m v => exact absurd he (by simp [epsOk])

/-- Witness for C9: a two-entry `diff` against one-dimensional data fails
with the axis error even though the `[0, 0]` key is already cached (from
a hypothetical two-dimensional call). -/
theorem c9_diff_dim_mismatch_witness :
    RBF.call ⟨.mul (.sym .EPS) (.sym .R), none, [([0, 0], .num 7)], []⟩ idLimit
      (.a2 1 [[1]]) (.a2 1 [[0]]) (.a0 1) (some (.list [0, 0])) =
      .error (.axisMismatch 0 "diff" 2 1) :=
  c9_diff_dim_mismatch idLimit ⟨.mul (.sym .EPS) (.sym .R), none, [([0, 0], .num 7)], []⟩
    1 [[1]] [[0]] (.a0 1) (List.replicate 1 1) (by simp [epsOk]) (.list [0, 0])
    (by decide)

/-- Fields other than the cache are preserved by every successful
shape-valid call. -/
theorem call_ok_fields (limitFn : Sym → Sym → Expr → Expr) (self : RBF) (d : Nat)
    (xrows crows : List (List Q)) (eps : NDArr) (epsArr : List Q)
    (he : epsOk eps crows.length epsArr) (diffArg : Option DiffArg) (key : List Nat)
    (hkey : key = (match diffArg with
                   | none => List.replicate d 0
                   | some s => s.toTuple))
    (hlen : key.length = d) (rbf2 : RBF) (out : List (List (Option Q)))
    (h : self.call limitFn (.a2 d xrows) (.a2 d crows) eps diffArg = .ok (rbf2, out)) :
    rbf2.expr = self.expr ∧ rbf2.tol = self.tol ∧ rbf2.limits = self.limits := by
  have hu := call_unfold self limitFn d xrows crows eps epsArr he diffArg key hkey hlen
  rw [hu] at h
  cases hq : lookupAssoc self.cache key with
  | some f =>
      rw [hq] at h
      injection h with h2
      injection h2 with h3 h4
      subst h3
      exact ⟨rfl, rfl, rfl⟩
  | none =>
      rw [hq] at h
      injection h with h2
      injection h2 with h3 h4
      rw [← h3]
      exact ⟨rfl, rfl, rfl⟩

/-- C8: a successful `evaluate` call can mutate the definition only
through its cache: the stored expression, tolerance and limits table are
unchanged.  (The caller's arrays cannot be modified at all in this pure
embedding: `call` only reads them.) -/
theorem c8_frame_effect (limitFn : Sym → Sym → Expr → Expr) (self : RBF)
    (x c eps : NDArr) (dA : Option DiffArg) (rbf2 : RBF)
    (out : List (List (Option Q)))
    (h : self.call limitFn x c eps dA = .ok (rbf2, out)) :
    rbf2.expr = self.expr ∧ rbf2.tol = self.tol ∧ rbf2.limits = self.limits := by
  cases x with
  | a0 v => simp [RBF.call, NDArr.shape, assert_shape, checkAxes] at h
  | a1 v => simp [RBF.call, NDArr.shape, assert_shape, checkAxes] at h
  | a2 d xrows =>
    cases c with
    | a0 v => simp [RBF.call, NDArr.shape, assert_shape, checkAxes] at h
    | a1 v => simp [RBF.call, NDArr.shape, assert_shape, checkAxes] at h
    | a2 m crows =>
      by_cases hmd : m = d
      · subst hmd
        cases eps with
        | a0 v =>
            cases dA with
            | none =>
                exact call_ok_fields limitFn self m xrows crows (.a0 v)
                  (List.replicate crows.length v) (by simp [epsOk]) none
                  (List.replicate m 0) rfl (List.length_replicate _ _) rbf2 out h
            | some s =>
                by_cases hlen : s.toTuple.length = m
                · exact call_ok_fields limitFn self m xrows crows (.a0 v)
                    (List.replicate crows.length v) (by simp [epsOk]) (some s)
                    s.toTuple rfl hlen rbf2 out h
                · simp [RBF.call, NDArr.shape, assert_shape, checkAxes, List.getD,
                    hlen] at h
        | a1 l =>
            by_cases hl : l.length = crows.length
            · cases dA with
              | none =>
                  exact call_ok_fields limitFn self m xrows crows (.a1 l) l
                    ⟨rfl, hl⟩ none (List.replicate m 0) rfl
                    (List.length_replicate _ _) rbf2 out h
              | some s =>
                  by_cases hlen : s.toTuple.length = m
                  · exact call_ok_fields limitFn self m xrows crows (.a1 l) l
                      ⟨rfl, hl⟩ (some s) s.toTuple rfl hlen rbf2 out h
                  · simp [RBF.call, NDArr.shape, assert_shape, checkAxes, List.getD,
                      hlen, hl] at h
            · simp [RBF.call, NDArr.shape, assert_shape, checkAxes, List.getD, hl] at h
        | a2 me ve =>
            simp [RBF.call, NDArr.shape, assert_shape, checkAxes, List.getD] at h
      · simp [RBF.call, NDArr.shape, assert_shape, checkAxes, List.getD, hmd] at h

/-- Witness for C8: a successful `phs1` evaluation (compiling the `[0]`
key) leaves expression, tolerance and limits intact. -/
theorem c8_frame_effect_witness :
    (RBF.mk phs1.expr phs1.tol
        (updateAssoc phs1.cache [0] (phs1.compileDiff idLimit [0])) phs1.limits).expr =
      phs1.expr ∧
    (RBF.mk phs1.expr phs1.tol
        (updateAssoc phs1.cache [0] (phs1.compileDiff idLimit [0])) phs1.limits).tol =
      phs1.tol ∧
    (RBF.mk phs1.expr phs1.tol
        (updateAssoc phs1.cache [0] (phs1.compileDiff idLimit [0])) phs1.limits).limits =
      phs1.limits := by
  have hu := call_unfold phs1 idLimit 1 [[5]] [[5]] (.a0 1) (List.replicate 1 1)
    (by simp [epsOk]) none [0] rfl (by decide)
  rw [show lookupAssoc phs1.cache [0] = (none : Option Expr) from rfl] at hu
  exact c8_frame_effect idLimit phs1 (.a2 1 [[5]]) (.a2 1 [[5]]) (.a0 1) none _ _ hu

/-- C6: the compiled-evaluator cache only grows.  A successful call
either finds the key and leaves the definition untouched (reusing the
cached evaluator for the output, with no recompilation), or appends
exactly the one newly compiled entry; and any later shape-valid call
resolving to the same key reuses the now-cached evaluator and leaves the
state unchanged. -/
theorem c6_cache_monotone (limitFn : Sym → Sym → Expr → Expr) (self : RBF) (d : Nat)
    (xrows crows : List (List Q)) (eps : NDArr) (epsArr : List Q)
    (he : epsOk eps crows.length epsArr) (diffArg : Option DiffArg) (key : List Nat)
    (hkey : key = (match diffArg with
                   | none => List.replicate d 0
                   | some s => s.toTuple))
    (hlen : key.length = d) :
    ∃ rbf2 out,
      self.call limitFn (.a2 d xrows) (.a2 d crows) eps diffArg = .ok (rbf2, out) ∧
      (∀ f, lookupAssoc self.cache key = some f →
        rbf2 = self ∧ out = outMatrix f xrows crows epsArr) ∧
      (lookupAssoc self.cache key = none →
        rbf2.cache = self.cache ++ [(key, self.compileDiff limitFn key)] ∧
        lookupAssoc rbf2.cache key = some (self.compileDiff limitFn key)) ∧
      (∀ (d2 : Nat) (xrows2 crows2 : List (List Q)) (eps2 : NDArr) (epsArr2 : List Q),
        epsOk eps2 crows2.length epsArr2 →
        ∀ (diffArg2 : Option DiffArg),
          key = (match diffArg2 with
                 | none => List.replicate d2 0
                 | some s => s.toTuple) →
          key.length = d2 →
          rbf2.call limitFn (.a2 d2 xrows2) (.a2 d2 crows2) eps2 diffArg2 =
            .ok (rbf2, outMatrix ((lookupAssoc rbf2.cache key).getD (.num 0))
              xrows2 crows2 epsArr2)) := by
  have hu := call_unfold self limitFn d xrows crows eps epsArr he diffArg key hkey hlen
  cases hq : lookupAssoc self.cache key with
  | some f =>
      rw [hq] at hu
      refine ⟨self, outMatrix f xrows crows epsArr, hu, ?_, ?_, ?_⟩
      · intro f2 hf2
        injection hf2 with h3
        subst h3
        exact ⟨rfl, rfl⟩
      · intro hn
        exact absurd hn (by simp)
      · intro d2 xrows2 crows2 eps2 epsArr2 he2 diffArg2 hkey2 hlen2
        have hu2 := call_unfold self limitFn d2 xrows2 crows2 eps2 epsArr2 he2
          diffArg2 key hkey2 hlen2
        rw [hq] at hu2
        rw [hq]
        exact hu2
  | none =>
      rw [hq] at hu
      refine ⟨_, _, hu, ?_, ?_, ?_⟩
      · intro f2 hf2
        exact absurd hf2 (by simp)
      · intro _
        exact ⟨updateAssoc_of_lookup_none self.cache key _ hq,
          lookup_updateAssoc_self _ _ _⟩
      · intro d2 xrows2 crows2 eps2 epsArr2 he2 diffArg2 hkey2 hlen2
        have hu2 := call_unfold
          { self with cache := (updateAssoc self.cache key (self.compileDiff limitFn key)) }
          limitFn d2 xrows2 crows2 eps2 epsArr2 he2 diffArg2 key hkey2 hlen2
        have hlk : lookupAssoc
            ({ self with cache := (updateAssoc self.cache key (self.compileDiff limitFn key)) } : RBF).cache key =
            some (self.compileDiff limitFn key) := lookup_updateAssoc_self _ _ _
        rw [hlk] at hu2
        rw [hlk]
        exact hu2

/-- Witness for C6: a first `phs1` evaluation compiles and appends the
`[0]` entry; the immediately repeated call reuses it and leaves the state
unchanged. -/
theorem c6_cache_monotone_witness :
    ∃ rbf2 out,
      phs1.call idLimit (.a2 1 [[5]]) (.a2 1 [[5]]) (.a0 1) none = .ok (rbf2, out) ∧
      (∀ f, lookupAssoc phs1.cache [0] = some f →
        rbf2 = phs1 ∧ out = outMatrix f [[5]] [[5]] (List.replicate 1 1)) ∧
      (lookupAssoc phs1.cache [0] = none →
        rbf2.cache = phs1.cache ++ [([0], phs1.compileDiff idLimit [0])] ∧
        lookupAssoc rbf2.cache [0] = some (phs1.compileDiff idLimit [0])) ∧
      (∀ (d2 : Nat) (xrows2 crows2 : List (List Q)) (eps2 : NDArr) (epsArr2 : List Q),
        epsOk eps2 crows2.length epsArr2 →
        ∀ (diffArg2 : Option DiffArg),
          [0] = (match diffArg2 with
                 | none => List.replicate d2 0
                 | some s => s.toTuple) →
          ([0] : List Nat).length = d2 →
          rbf2.call idLimit (.a2 d2 xrows2) (.a2 d2 crows2) eps2 diffArg2 =
            .ok (rbf2, outMatrix ((lookupAssoc rbf2.cache [0]).getD (.num 0))
              xrows2 crows2 epsArr2)) :=
  c6_cache_monotone idLimit phs1 1 [[5]] [[5]] (.a0 1) (List.replicate 1 1)
    (by simp [epsOk]) none [0] (by decide) (by decide)

/-- C10: the derivative argument is converted to a tuple before the cache
lookup, so passing the same multi-index as a list or as a tuple gives
identical results; and after a first call with the list form, the call
with the tuple form hits the cache entry made by the first call, returning
the same output with no further compilation or cache change. -/
theorem c10_list_tuple_key (limitFn : Sym → Sym → Expr → Expr) (self : RBF)
    (x c eps : NDArr) (l : List Nat) :
    (self.call limitFn x c eps (some (.list l)) =
      self.call limitFn x c eps (some (.tup l))) ∧
    (∀ (d : Nat) (xrows crows : List (List Q)) (epsArr : List Q) (rbf2 : RBF)
        (out : List (List (Option Q))),
      x = .a2 d xrows → c = .a2 d crows → epsOk eps crows.length epsArr →
      l.length = d →
      self.call limitFn x c eps (some (.list l)) = .ok (rbf2, out) →
      rbf2.call limitFn x c eps (some (.tup l)) = .ok (rbf2, out)) := by
  constructor
  · rfl
  · intro d xrows crows epsArr rbf2 out hx hc he hlen h
    subst hx
    subst hc
    have hu := call_unfold self limitFn d xrows crows eps epsArr he
      (some (.list l)) l rfl hlen
    cases hq : lookupAssoc self.cache l with
    | some f =>
        rw [hq] at hu
        rw [hu] at h
        injection h with h2
        injection h2 with h3 h4
        subst h3
        subst h4
        have hu2 := call_unfold self limitFn d xrows crows eps epsArr he
          (some (.tup l)) l rfl hlen
        rw [hq] at hu2
        exact hu2
    | none =>
        rw [hq] at hu
        rw [hu] at h
        injection h with h2
        injection h2 with h3 h4
        subst h3
        subst h4
        have hu2 := call_unfold
          { self with cache := (updateAssoc self.cache l (self.compileDiff limitFn l)) }
          limitFn d xrows crows eps epsArr he (some (.tup l)) l rfl hlen
        rw [show lookupAssoc (updateAssoc self.cache l (self.compileDiff limitFn l)) l =
            some (self.compileDiff limitFn l) from lookup_updateAssoc_self _ _ _] at hu2
        exact hu2

/-- Witness for C10: after a first `phs1` call passing the derivative
order as a list, the repeat call passing it as a tuple reuses the cache
entry, returning the same output and state. -/
theorem c10_list_tuple_key_witness :
    RBF.call (RBF.mk phs1.expr phs1.tol
        (updateAssoc phs1.cache [0] (phs1.compileDiff idLimit [0])) phs1.limits)
      idLimit (.a2 1 [[5]]) (.a2 1 [[5]]) (.a0 1) (some (.tup [0])) =
    .ok (RBF.mk phs1.expr phs1.tol
        (updateAssoc phs1.cache [0] (phs1.compileDiff idLimit [0])) phs1.limits,
      outMatrix (phs1.compileDiff idLimit [0]) [[5]] [[5]] (List.replicate 1 1)) := by
  have hu := call_unfold phs1 idLimit 1 [[5]] [[5]] (.a0 1) (List.replicate 1 1)
    (by simp [epsOk]) (some (.list [0])) [0] rfl (by decide)
  rw [show lookupAssoc phs1.cache [0] = (none : Option Expr) from rfl] at hu
  exact (c10_list_tuple_key idLimit phs1 (.a2 1 [[5]]) (.a2 1 [[5]]) (.a0 1) [0]).2
    1 [[5]] [[5]] (List.replicate 1 1) _ _ rfl rfl (by simp [epsOk]) (by decide) hu

end RbfBasis
